import Mathlib

/-!
Verification of the `esc env open` command core
(`cmd/esc/cli/env_open.go`): value trees, property-path navigation,
the two-phase open protocol, and the five output renderers.
-/

set_option maxHeartbeats 1000000

/-- Modelled from the spec: `esc.Value` (the value-tree type lives outside
`src/`). A dynamically-typed tree: scalar (null / bool / number / string),
ordered sequence, or ordered mapping of string to value. Mappings are
represented as association lists in insertion order (keys unique in any tree
produced by the remote service; theorems that need uniqueness carry a
`Nodup` hypothesis). The optional secret/provenance metadata is not modelled:
the spec states it is propagated but never altered or consulted by the
navigation and rendering logic treated here. -/
inductive Value : Type where
  | null : Value
  | bool (b : Bool) : Value
  | num (n : Int) : Value
  | str (s : String) : Value
  | arr (elems : List Value) : Value
  | obj (entries : List (String × Value)) : Value

/-- Modelled from the spec: a segment of a `resource.PropertyPath` (the parser
lives outside `src/`) — either a mapping key or a sequence index. -/
inductive PathSeg : Type where
  | key (k : String) : PathSeg
  | idx (i : Nat) : PathSeg

/-- A parsed property path: an ordered sequence of segments; empty means the
whole tree. -/
abbrev PropertyPath := List PathSeg

/-- First-match association-list lookup: models indexing a Go
`map[string]esc.Value` by key (some value when present, none when absent). -/
def lookupEntry : List (String × Value) → String → Option Value
  | [], _ => none
  | (k', v) :: rest, k => if k' = k then some v else lookupEntry rest k

/-- Modelled from the spec: `getEnvValue` (Path Navigator, defined in
`cmd/esc/cli/env.go`, outside `src/`). Empty path returns the node; a key
segment descends into a mapping when the key is present; an index segment
descends into a sequence when in range; any mismatch is a lookup miss
(`none`), never an error. -/
def getEnvValue : Value → PropertyPath → Option Value
  | v, [] => some v
  | Value.obj entries, PathSeg.key k :: rest =>
      match lookupEntry entries k with
      | some v => getEnvValue v rest
      | none => none
  | Value.arr elems, PathSeg.idx i :: rest =>
      match elems[i]? with
      | some v => getEnvValue v rest
      | none => none
  | _, _ => none

/-- Lexicographic comparison of character lists by codepoint. Go's
`sort.Strings` compares UTF-8 bytes lexicographically, which coincides with
this codepoint-wise lexicographic order. -/
def charsLe : List Char → List Char → Bool
  | [], _ => true
  | _ :: _, [] => false
  | c :: cs, d :: ds => if c < d then true else if d < c then false else charsLe cs ds

/-- String comparison used by Go `sort.Strings`, on the character lists. -/
def strLe (a b : String) : Bool := charsLe a.data b.data

/-- Insert a string into a (sorted) list, keeping it sorted under `strLe`. -/
def insertSorted (k : String) : List String → List String
  | [] => [k]
  | x :: xs => if strLe k x then k :: x :: xs else x :: insertSorted k xs

/-- Models Go `sort.Strings`: sorts a string list ascending in byte/codepoint
lexicographic order (insertion sort; Go's choice of algorithm is immaterial
because the order is total and antisymmetric, so the sorted permutation is
unique). -/
def sortStrings : List String → List String
  | [] => []
  | x :: xs => insertSorted x (sortStrings xs)

/-- Lowercase hexadecimal digit, as produced by Go's `strconv` quoting. -/
def hexDigit (n : Nat) : Char :=
  if n < 10 then Char.ofNat (48 + n) else Char.ofNat (87 + n)

/-- Two lowercase hex digits. -/
def hex2 (n : Nat) : List Char :=
  [hexDigit ((n / 16) % 16), hexDigit (n % 16)]

/-- Four lowercase hex digits. -/
def hex4 (n : Nat) : List Char :=
  [hexDigit ((n / 4096) % 16), hexDigit ((n / 256) % 16),
    hexDigit ((n / 16) % 16), hexDigit (n % 16)]

/-- Eight lowercase hex digits. -/
def hex8 (n : Nat) : List Char :=
  hex4 ((n / 65536) % 65536) ++ hex4 (n % 65536)

/-- Models Go `strconv.Quote` (the `%q` fmt verb) on one character: a double
quote or backslash is backslash-escaped; a printable character passes through
verbatim; the seven classic control escapes are used for their characters;
any other character below space (or DEL) becomes a `\x` escape and any other
rune a `\u`/`\U` escape. `unicode.IsPrint` is approximated by printable
ASCII (0x20–0x7e): printable non-ASCII runes, which Go would emit verbatim,
are emitted here as Unicode escapes; no theorem below depends on characters
in that region. -/
def goQuoteChar (c : Char) : List Char :=
  if c = '"' ∨ c = '\\' then ['\\', c]
  else if 32 ≤ c.toNat ∧ c.toNat ≤ 126 then [c]
  else if c = '\x07' then ['\\', 'a']
  else if c = '\x08' then ['\\', 'b']
  else if c = '\x0c' then ['\\', 'f']
  else if c = '\n' then ['\\', 'n']
  else if c = '\x0d' then ['\\', 'r']
  else if c = '\t' then ['\\', 't']
  else if c = '\x0b' then ['\\', 'v']
  else if c.toNat < 32 ∨ c.toNat = 127 then '\\' :: 'x' :: hex2 c.toNat
  else if c.toNat < 65536 then '\\' :: 'u' :: hex4 c.toNat
  else '\\' :: 'U' :: hex8 c.toNat

/-- Models Go `strconv.Quote` / the `%q` fmt verb on a string: the escaped
characters wrapped in double quotes. -/
def goQuote (s : String) : String :=
  String.mk ('"' :: (s.data.map goQuoteChar).flatten ++ ['"'])

/-- Models `esc.Environment` (outside `src/`): its `Properties` mapping of
string to `esc.Value`, as an association list in insertion order. -/
structure Environment : Type where
  properties : List (String × Value)

/-- Translation of `getEnvironmentVariables` (env_open.go lines 137–153):
take the `environmentVariables` property of the environment; unless it is a
mapping of string to value, return no lines; otherwise sort its keys and,
for each key whose value is a string, emit `KEY=VALUE` with the value quoted
by the `%q` verb (`fmt.Sprintf("%v=%q", k, strValue)`). -/
def getEnvironmentVariables (env : Environment) : List String :=
  match lookupEntry env.properties "environmentVariables" with
  | some (Value.obj vars) =>
      (sortStrings (vars.map Prod.fst)).filterMap fun k =>
        match lookupEntry vars k with
        | some (Value.str s) => some (k ++ "=" ++ goQuote s)
        | _ => none
  | _ => []

/-- Indentation produced by the JSON encoder: two spaces per nesting level
(`enc.SetIndent("", "  ")`). -/
def jsonPad (depth : Nat) : String := String.mk (List.replicate (2 * depth) ' ')

/-- Models Go `encoding/json` string escaping with the encoder's defaults
(HTML escaping on): quote and backslash are backslash-escaped; newline,
carriage return and tab use their short escapes; other control characters,
the HTML-significant characters and U+2028/U+2029 become `\u` escapes;
everything else passes through verbatim. -/
def jsonQuoteChar (c : Char) : List Char :=
  if c = '"' then ['\\', '"']
  else if c = '\\' then ['\\', '\\']
  else if c = '\n' then ['\\', 'n']
  else if c = '\x0d' then ['\\', 'r']
  else if c = '\t' then ['\\', 't']
  else if c.toNat < 32 then '\\' :: 'u' :: hex4 c.toNat
  else if c = '<' ∨ c = '>' ∨ c = '&' then '\\' :: 'u' :: hex4 c.toNat
  else if c.toNat = 8232 ∨ c.toNat = 8233 then '\\' :: 'u' :: hex4 c.toNat
  else [c]

/-- Models Go `encoding/json` encoding of a string value. -/
def jsonQuote (s : String) : String :=
  String.mk ('"' :: (s.data.map jsonQuoteChar).flatten ++ ['"'])

mutual

/-- Modelled from the spec: the composition of `val.ToJSON(false)` (the plain
JSON projection of a value, outside `src/`) with Go's `json.Encoder` at
two-space indentation — sequences become arrays, mappings become objects with
keys in insertion order, scalars their JSON forms; the value's own line does
not carry the leading pad (the caller supplies it), matching `json.Indent`. -/
def jsonPretty (depth : Nat) : Value → String
  | Value.null => "null"
  | Value.bool b => if b then "true" else "false"
  | Value.num n => toString n
  | Value.str s => jsonQuote s
  | Value.arr [] => "[]"
  | Value.arr (x :: xs) =>
      "[\n" ++
        String.intercalate ",\n"
          ((jsonPrettyList (depth + 1) (x :: xs)).map (fun ln => jsonPad (depth + 1) ++ ln)) ++
        "\n" ++ jsonPad depth ++ "]"
  | Value.obj [] => "\x7b\x7d"
  | Value.obj (e :: es) =>
      "\x7b\n" ++
        String.intercalate ",\n"
          ((jsonPrettyEntries (depth + 1) (e :: es)).map (fun ln => jsonPad (depth + 1) ++ ln)) ++
        "\n" ++ jsonPad depth ++ "\x7d"

/-- Renders each element of a sequence at the given depth. -/
def jsonPrettyList (depth : Nat) : List Value → List String
  | [] => []
  | x :: xs => jsonPretty depth x :: jsonPrettyList depth xs

/-- Renders each `"key": value` pair of a mapping at the given depth. -/
def jsonPrettyEntries (depth : Nat) : List (String × Value) → List String
  | [] => []
  | (k, v) :: es => (jsonQuote k ++ ": " ++ jsonPretty depth v) :: jsonPrettyEntries depth es

end

mutual

/-- Modelled from the spec: `esc.Value.ToString(false)` (outside `src/`) — a
human-readable, non-pretty flattened representation. The spec fixes no exact
text for nested values, only that the function is total and deterministic;
scalars render in their natural form. -/
def valToString : Value → String
  | Value.null => ""
  | Value.bool b => if b then "true" else "false"
  | Value.num n => toString n
  | Value.str s => s
  | Value.arr xs => "[" ++ String.intercalate "," (valToStringList xs) ++ "]"
  | Value.obj es => "\x7b" ++ String.intercalate "," (valToStringEntries es) ++ "\x7d"

/-- Flattens each element of a sequence. -/
def valToStringList : List Value → List String
  | [] => []
  | x :: xs => valToString x :: valToStringList xs

/-- Flattens each `key:value` pair of a mapping. -/
def valToStringEntries : List (String × Value) → List String
  | [] => []
  | (k, v) :: es => (k ++ ":" ++ valToString v) :: valToStringEntries es

end

/-- The narrowing step of `renderValue` (env_open.go lines 98–105): a
non-empty path narrows the root value via `getEnvValue`, substituting the
zero `esc.Value{}` (the undefined/null value) on a lookup miss. -/
def narrowValue (root : Value) (path : PropertyPath) : Value :=
  if path.isEmpty then root else
    match getEnvValue root path with
    | some v => v
    | none => Value.null

/-- Translation of `renderValue` (env_open.go lines 88–135). A nil
environment returns immediately with no output and no error. Otherwise the
root value is the environment's property mapping, narrowed by the path. The
result is the text written to `out` (ok) or the returned error. -/
def renderValue (env : Option Environment) (path : PropertyPath) (format : String) :
    Except String String :=
  match env with
  | none => Except.ok ""
  | some env =>
      let val := narrowValue (Value.obj env.properties) path
      match format with
      | "json" => Except.ok (jsonPretty 0 val ++ "\n")
      | "detailed" => Except.ok (jsonPretty 0 val ++ "\n")
      | "dotenv" =>
          Except.ok (String.join ((getEnvironmentVariables env).map (fun kvp => kvp ++ "\n")))
      | "shell" =>
          Except.ok (String.join
            ((getEnvironmentVariables env).map (fun kvp => "export " ++ kvp ++ "\n")))
      | "string" => Except.ok (valToString val ++ "\n")
      | _ => Except.error ("unknown output format " ++ goQuote format)

/-- A remote call observable at the client interface: the open-session call
(`client.OpenEnvironment`) or the fetch call (`client.GetOpenEnvironment`). -/
inductive RemoteCall : Type where
  | openCall : RemoteCall
  | getCall : RemoteCall
  deriving DecidableEq

/-- Models the transport collaborator (`client.Client`, outside `src/`) with
canned responses: `openResult` is what `OpenEnvironment` returns (a session
identifier together with the diagnostics list, or a transport error);
`getResult` is what `GetOpenEnvironment` returns for a given session
identifier. -/
structure Client : Type where
  openResult : Except String (String × List String)
  getResult : String → Except String Environment

/-- What `envCommand.openEnvironment` returns — the environment (nil on any
non-success), the diagnostics, and the error — together with the remote calls
it made, in order. -/
structure OpenOutcome : Type where
  env : Option Environment
  diags : List String
  err : Option String
  calls : List RemoteCall

/-- Translation of `envCommand.openEnvironment` (env_open.go lines 155–170):
call `OpenEnvironment`; on a transport error propagate it; if the returned
diagnostics are non-empty return them with no environment and no error and
without calling `GetOpenEnvironment`; otherwise call `GetOpenEnvironment`
and return its result. -/
def openEnvironment (c : Client) : OpenOutcome :=
  match c.openResult with
  | Except.error e => ⟨none, [], some e, [RemoteCall.openCall]⟩
  | Except.ok (envID, diags) =>
      if diags.isEmpty then
        match c.getResult envID with
        | Except.error e => ⟨none, [], some e, [RemoteCall.openCall, RemoteCall.getCall]⟩
        | Except.ok env => ⟨some env, [], none, [RemoteCall.openCall, RemoteCall.getCall]⟩
      else ⟨none, diags, none, [RemoteCall.openCall]⟩

/-- Modelled from the spec: `writePropertyEnvironmentDiagnostics` (outside
`src/`) reports the diagnostics on the error stream, distinctly from errors,
and returns success. -/
def writeDiags (diags : List String) : String :=
  String.join (diags.map (fun d => d ++ "\n"))

/-- Observable outcome of one invocation of the command body: the returned
error, the text written to stdout and to stderr, and the remote calls made. -/
structure RunOutcome : Type where
  err : Option String
  stdout : String
  stderr : String
  calls : List RemoteCall

/-- The open-then-render tail of the `RunE` body (env_open.go lines 66–74):
run the open phase; propagate a transport error; report non-empty diagnostics
on stderr and return success; otherwise render to stdout. -/
def runOpen (c : Client) (path : PropertyPath) (format : String) : RunOutcome :=
  let o := openEnvironment c
  match o.err with
  | some e => ⟨some e, "", "", o.calls⟩
  | none =>
      if o.diags.isEmpty then
        match renderValue o.env path format with
        | Except.ok out => ⟨none, out, "", o.calls⟩
        | Except.error e => ⟨some e, "", "", o.calls⟩
      else ⟨none, "", writeDiags o.diags, o.calls⟩

/-- Translation of the `RunE` body of `newEnvOpenCmd` (env_open.go lines
33–75) from the point where the property path has been parsed: the format
validation switch (lines 55–64) runs first and returns a user error with no
remote call on an incompatible or unknown format; only then does the open
phase run (lines 66–72), followed by rendering (line 74). The client-caching
and name-parsing preliminaries (lines 36–53) are external collaborators and
make neither of the two remote calls modelled here. -/
def runE (c : Client) (path : PropertyPath) (format : String) : RunOutcome :=
  if format = "detailed" ∨ format = "json" ∨ format = "string" then
    runOpen c path format
  else if format = "dotenv" ∨ format = "shell" then
    if path.isEmpty then
      runOpen c path format
    else
      ⟨some ("output format '" ++ format ++ "' may not be used with a property path"),
        "", "", []⟩
  else
    ⟨some ("unknown output format " ++ goQuote format), "", "", []⟩

/-- An environment whose properties consist of the given
`environmentVariables` mapping. -/
def mkEnv (vars : List (String × Value)) : Environment :=
  ⟨[("environmentVariables", Value.obj vars)]⟩

/-- Every character of the string is printable ASCII and needs no escaping
under Go quoting (not a double quote, not a backslash). -/
def plainChars (s : String) : Prop :=
  ∀ c ∈ s.data, 32 ≤ c.toNat ∧ c.toNat ≤ 126 ∧ c ≠ '"' ∧ c ≠ '\\'

/-- Whether a value is a string scalar (the Go type assertion
`v.Value.(string)` succeeds). -/
def isStrVal : Value → Bool
  | Value.str _ => true
  | _ => false

/-- `needle` occurs verbatim as a contiguous substring of `hay`. -/
def containsLit (hay needle : String) : Prop :=
  needle.data <:+: hay.data

/-- The character-list comparison is total. -/
theorem charsLe_total : ∀ a b : List Char, charsLe a b = true ∨ charsLe b a = true
  | [], _ => Or.inl rfl
  | _ :: _, [] => Or.inr rfl
  | c :: cs, d :: ds => by
    rcases lt_trichotomy c d with h | h | h
    · left; simp [charsLe, h]
    · subst h
      rcases charsLe_total cs ds with ih | ih
      · left; simpa [charsLe, lt_irrefl] using ih
      · right; simpa [charsLe, lt_irrefl] using ih
    · right; simp [charsLe, h]

/-- The character-list comparison is transitive. -/
theorem charsLe_trans : ∀ a b c : List Char,
    charsLe a b = true → charsLe b c = true → charsLe a c = true
  | [], _, _, _, _ => rfl
  | _ :: _, [], _, h, _ => by simp [charsLe] at h
  | _ :: _, _ :: _, [], _, h => by simp [charsLe] at h
  | x :: xs, y :: ys, z :: zs, h1, h2 => by
    simp only [charsLe] at h1 h2 ⊢
    by_cases hxy : x < y
    · by_cases hyz : y < z
      · simp [lt_trans hxy hyz]
      · by_cases hzy : z < y
        · simp [hyz, hzy] at h2
        · have hyze : y = z := le_antisymm (not_lt.mp hzy) (not_lt.mp hyz)
          subst hyze
          simp [hxy]
    · by_cases hyx : y < x
      · simp [hxy, hyx] at h1
      · have hxye : x = y := le_antisymm (not_lt.mp hyx) (not_lt.mp hxy)
        subst hxye
        simp only [lt_irrefl, if_false] at h1
        by_cases hxz : x < z
        · simp [hxz]
        · by_cases hzx : z < x
          · simp [hxz, hzx] at h2
          · have hxze : x = z := le_antisymm (not_lt.mp hzx) (not_lt.mp hxz)
            subst hxze
            simp only [lt_irrefl, if_false] at h2 ⊢
            exact charsLe_trans xs ys zs h1 h2

/-- The character-list comparison is antisymmetric. -/
theorem charsLe_antisymm : ∀ a b : List Char,
    charsLe a b = true → charsLe b a = true → a = b
  | [], [], _, _ => rfl
  | [], _ :: _, _, h => by simp [charsLe] at h
  | _ :: _, [], h, _ => by simp [charsLe] at h
  | c :: cs, d :: ds, h1, h2 => by
    simp only [charsLe] at h1 h2
    by_cases hcd : c < d
    · simp [lt_asymm hcd, hcd] at h2
    · by_cases hdc : d < c
      · simp [hcd, hdc] at h1
      · have hce : c = d := le_antisymm (not_lt.mp hdc) (not_lt.mp hcd)
        subst hce
        simp only [lt_irrefl, if_false] at h1 h2
        rw [charsLe_antisymm cs ds h1 h2]

/-- The string comparison is total. -/
theorem strLe_total (a b : String) : strLe a b = true ∨ strLe b a = true :=
  charsLe_total a.data b.data

/-- The string comparison is transitive. -/
theorem strLe_trans {a b c : String} (h1 : strLe a b = true) (h2 : strLe b c = true) :
    strLe a c = true :=
  charsLe_trans a.data b.data c.data h1 h2

/-- The string comparison is antisymmetric. -/
theorem strLe_antisymm {a b : String} (h1 : strLe a b = true) (h2 : strLe b a = true) :
    a = b :=
  String.ext (charsLe_antisymm a.data b.data h1 h2)

/-- Membership in an insertion. -/
theorem mem_insertSorted {y k : String} :
    ∀ {l : List String}, y ∈ insertSorted k l → y = k ∨ y ∈ l := by
  intro l
  induction l with
  | nil => intro h; simp [insertSorted] at h; exact Or.inl h
  | cons x xs ih =>
      intro h
      by_cases hle : strLe k x
      · simp only [insertSorted] at h
        rw [if_pos hle, List.mem_cons] at h
        rcases h with h | h
        · exact Or.inl h
        · exact Or.inr h
      · simp only [insertSorted] at h
        rw [if_neg hle, List.mem_cons] at h
        rcases h with h | h
        · exact Or.inr (by simp [h])
        · rcases ih h with h' | h'
          · exact Or.inl h'
          · exact Or.inr (by simp [h'])

/-- Inserting is a permutation of consing. -/
theorem insertSorted_perm (k : String) : ∀ l : List String, (insertSorted k l).Perm (k :: l)
  | [] => List.Perm.refl _
  | x :: xs => by
    by_cases hle : strLe k x
    · simp only [insertSorted]
      rw [if_pos hle]
    · simp only [insertSorted]
      rw [if_neg hle]
      exact ((insertSorted_perm k xs).cons x).trans (List.Perm.swap k x xs)

/-- Sorting is a permutation. -/
theorem sortStrings_perm : ∀ l : List String, (sortStrings l).Perm l
  | [] => List.Perm.refl _
  | x :: xs => ((insertSorted_perm x (sortStrings xs)).trans
      ((sortStrings_perm xs).cons x))

/-- Inserting into a sorted list keeps it sorted. -/
theorem sorted_insertSorted {k : String} :
    ∀ {l : List String}, List.Pairwise (fun a b => strLe a b = true) l →
      List.Pairwise (fun a b => strLe a b = true) (insertSorted k l) := by
  intro l
  induction l with
  | nil => intro _; simp [insertSorted]
  | cons x xs ih =>
      intro h
      rcases List.pairwise_cons.mp h with ⟨hx, hxs⟩
      by_cases hle : strLe k x
      · simp only [insertSorted]
        rw [if_pos hle]
        refine List.pairwise_cons.mpr ⟨?_, h⟩
        intro z hz
        rcases List.mem_cons.mp hz with hz | hz
        · rw [hz]; exact hle
        · exact strLe_trans hle (hx z hz)
      · simp only [insertSorted]
        rw [if_neg hle]
        refine List.pairwise_cons.mpr ⟨?_, ih hxs⟩
        intro z hz
        rcases mem_insertSorted hz with hz' | hz'
        · rw [hz']
          rcases strLe_total k x with h' | h'
          · exact absurd h' hle
          · exact h'
        · exact hx z hz'

/-- The sort produces a sorted list. -/
theorem sorted_sortStrings : ∀ l : List String,
    List.Pairwise (fun a b => strLe a b = true) (sortStrings l)
  | [] => List.Pairwise.nil
  | _ :: xs => sorted_insertSorted (sorted_sortStrings xs)

/-- Two permutations of the same keys sort to the same list: the sorted
order is unique because the comparison is total and antisymmetric. -/
theorem sortStrings_eq_of_perm {l l' : List String} (h : l.Perm l') :
    sortStrings l = sortStrings l' :=
  @List.eq_of_perm_of_sorted String (fun a b => strLe a b = true)
    ⟨fun _ _ h1 h2 => strLe_antisymm h1 h2⟩ _ _
    ((sortStrings_perm l).trans (h.trans (sortStrings_perm l').symm))
    (sorted_sortStrings l) (sorted_sortStrings l')

/-- A successful lookup finds an entry of the list. -/
theorem lookupEntry_mem : ∀ {vars : List (String × Value)} {k : String} {v : Value},
    lookupEntry vars k = some v → (k, v) ∈ vars := by
  intro vars
  induction vars with
  | nil => intro k v h; simp [lookupEntry] at h
  | cons e rest ih =>
      intro k v h
      rcases e with ⟨k', v'⟩
      by_cases hk : k' = k
      · subst hk
        rw [lookupEntry, if_pos rfl] at h
        cases h
        exact List.mem_cons_self _ _
      · rw [lookupEntry, if_neg hk] at h
        exact List.mem_cons_of_mem _ (ih h)

/-- The key of a successful lookup is among the keys. -/
theorem lookupEntry_key_mem {vars : List (String × Value)} {k : String} {v : Value}
    (h : lookupEntry vars k = some v) : k ∈ vars.map Prod.fst :=
  List.mem_map.mpr ⟨(k, v), lookupEntry_mem h, rfl⟩

/-- Lookup fails exactly on absent keys. -/
theorem lookupEntry_eq_none : ∀ {vars : List (String × Value)} {k : String},
    lookupEntry vars k = none ↔ k ∉ vars.map Prod.fst := by
  intro vars
  induction vars with
  | nil => intro k; simp [lookupEntry]
  | cons e rest ih =>
      intro k
      rcases e with ⟨k', v'⟩
      by_cases hk : k' = k
      · subst hk
        rw [lookupEntry, if_pos rfl]
        simp
      · rw [lookupEntry, if_neg hk, ih, List.map_cons]
        constructor
        · intro h hmem
          rcases List.mem_cons.mp hmem with he | hm
          · exact hk he.symm
          · exact h hm
        · intro h hm
          exact h (List.mem_cons_of_mem _ hm)

/-- With unique keys, membership determines the lookup result. -/
theorem mem_lookupEntry : ∀ {vars : List (String × Value)} {k : String} {v : Value},
    (k, v) ∈ vars → (vars.map Prod.fst).Nodup → lookupEntry vars k = some v := by
  intro vars
  induction vars with
  | nil => intro k v h _; simp at h
  | cons e rest ih =>
      intro k v h hn
      rcases e with ⟨k', v'⟩
      rw [List.map_cons, List.nodup_cons] at hn
      rcases List.mem_cons.mp h with h' | h'
      · rw [← h']
        rw [lookupEntry, if_pos rfl]
      · have hk : k' ≠ k := by
          intro he
          subst he
          exact hn.1 (List.mem_map.mpr ⟨(k', v), h', rfl⟩)
        rw [lookupEntry, if_neg hk]
        exact ih h' hn.2

/-- With unique keys, lookup is invariant under permutation of the entries. -/
theorem lookupEntry_perm {vars vars' : List (String × Value)} (hp : vars.Perm vars')
    (hn : (vars.map Prod.fst).Nodup) (k : String) :
    lookupEntry vars k = lookupEntry vars' k := by
  have hn' : (vars'.map Prod.fst).Nodup := ((hp.map Prod.fst).nodup_iff).mp hn
  cases hres : lookupEntry vars k with
  | some v =>
      exact (mem_lookupEntry (hp.mem_iff.mp (lookupEntry_mem hres)) hn').symm
  | none =>
      have : k ∉ vars'.map Prod.fst := fun hmem =>
        lookupEntry_eq_none.mp hres ((hp.map Prod.fst).mem_iff.mpr hmem)
      exact (lookupEntry_eq_none.mpr this).symm

/-- `getEnvironmentVariables` on a synthesized environment, unfolded. -/
theorem getEnvironmentVariables_mkEnv (vars : List (String × Value)) :
    getEnvironmentVariables (mkEnv vars) =
      (sortStrings (vars.map Prod.fst)).filterMap fun k =>
        match lookupEntry vars k with
        | some (Value.str s) => some (k ++ "=" ++ goQuote s)
        | _ => none := rfl

/-- A plain character passes through Go quoting unescaped. -/
theorem goQuoteChar_plain {c : Char} (h32 : 32 ≤ c.toNat) (h126 : c.toNat ≤ 126)
    (hq : c ≠ '"') (hb : c ≠ '\\') : goQuoteChar c = [c] := by
  unfold goQuoteChar
  rw [if_neg (by simp [hq, hb]), if_pos ⟨h32, h126⟩]

/-- Flattening a map that produces singletons is the identity. -/
theorem flatten_map_singleton : ∀ {l : List Char},
    (∀ c ∈ l, goQuoteChar c = [c]) → (l.map goQuoteChar).flatten = l := by
  intro l
  induction l with
  | nil => intro _; rfl
  | cons c cs ih =>
      intro h
      rw [List.map_cons, List.flatten_cons, h c (List.mem_cons_self c cs),
        ih (fun d hd => h d (List.mem_cons_of_mem _ hd))]
      rfl

/-- On a string of plain characters, Go quoting just wraps the content in
double quotes, verbatim. -/
theorem goQuote_plain {s : String} (h : plainChars s) : goQuote s = "\"" ++ s ++ "\"" := by
  apply String.ext
  have hfl : (s.data.map goQuoteChar).flatten = s.data :=
    flatten_map_singleton (fun c hc =>
      goQuoteChar_plain (h c hc).1 (h c hc).2.1 (h c hc).2.2.1 (h c hc).2.2.2)
  simp [goQuote, String.data_append, hfl]

/-- A missed lookup narrows to the undefined/null value. -/
theorem narrowValue_miss {root : Value} {path : PropertyPath} (hp : path ≠ [])
    (hm : getEnvValue root path = none) : narrowValue root path = Value.null := by
  have hie : path.isEmpty = false := by
    cases path with
    | nil => exact absurd rfl hp
    | cons a l => rfl
  simp [narrowValue, hie, hm]

/-- The json branch of `renderValue`, unfolded. -/
theorem renderValue_json (env : Environment) (path : PropertyPath) :
    renderValue (some env) path "json" =
      Except.ok (jsonPretty 0 (narrowValue (Value.obj env.properties) path) ++ "\n") := rfl

/-- The detailed branch of `renderValue`, unfolded. -/
theorem renderValue_detailed (env : Environment) (path : PropertyPath) :
    renderValue (some env) path "detailed" =
      Except.ok (jsonPretty 0 (narrowValue (Value.obj env.properties) path) ++ "\n") := rfl

/-- The string branch of `renderValue`, unfolded. -/
theorem renderValue_string (env : Environment) (path : PropertyPath) :
    renderValue (some env) path "string" =
      Except.ok (valToString (narrowValue (Value.obj env.properties) path) ++ "\n") := rfl

/-- The dotenv branch of `renderValue`, unfolded: one line per entry. -/
theorem renderValue_dotenv (env : Environment) (path : PropertyPath) :
    renderValue (some env) path "dotenv" =
      Except.ok (String.join ((getEnvironmentVariables env).map (fun kvp => kvp ++ "\n"))) := rfl

/-- The shell branch of `renderValue`, unfolded: one line per entry. -/
theorem renderValue_shell (env : Environment) (path : PropertyPath) :
    renderValue (some env) path "shell" =
      Except.ok (String.join
        ((getEnvironmentVariables env).map (fun kvp => "export " ++ kvp ++ "\n"))) := rfl

/-- With unique keys, lookup in a filtered list is the filtered lookup. -/
theorem lookupEntry_filter (P : String × Value → Bool) :
    ∀ {vars : List (String × Value)}, (vars.map Prod.fst).Nodup → ∀ k : String,
      lookupEntry (vars.filter P) k =
        match lookupEntry vars k with
        | some v => if P (k, v) then some v else none
        | none => none := by
  intro vars
  induction vars with
  | nil => intro _ k; rfl
  | cons e rest ih =>
      intro hn k
      rcases e with ⟨k', v'⟩
      rw [List.map_cons, List.nodup_cons] at hn
      rw [List.filter_cons]
      by_cases hk : k' = k
      · subst hk
        rw [lookupEntry, if_pos rfl]
        by_cases hP : P (k', v')
        · rw [if_pos hP, lookupEntry, if_pos rfl]
          show some v' = if P (k', v') = true then some v' else none
          rw [if_pos hP]
        · rw [if_neg hP]
          show lookupEntry (List.filter P rest) k' =
            if P (k', v') = true then some v' else none
          rw [if_neg hP]
          exact lookupEntry_eq_none.mpr fun hmem =>
            hn.1 (((List.filter_sublist rest).map Prod.fst).subset hmem)
      · rw [lookupEntry, if_neg hk]
        by_cases hP : P (k', v')
        · rw [if_pos hP, lookupEntry, if_neg hk]
          exact ih hn.2 k
        · rw [if_neg hP]
          exact ih hn.2 k

/-- With unique keys, the keys of a filtered entry list are the keys passing
the per-key version of the predicate. -/
theorem filter_map_fst (P : String × Value → Bool) :
    ∀ {vars : List (String × Value)}, (vars.map Prod.fst).Nodup →
      (vars.filter P).map Prod.fst =
        (vars.map Prod.fst).filter (fun k =>
          match lookupEntry vars k with
          | some v => P (k, v)
          | none => false) := by
  intro vars
  induction vars with
  | nil => intro _; rfl
  | cons e rest ih =>
      intro hn
      rcases e with ⟨k', v'⟩
      rw [List.map_cons, List.nodup_cons] at hn
      have hrest : (List.map Prod.fst rest).filter (fun k =>
          match lookupEntry ((k', v') :: rest) k with
          | some v => P (k, v)
          | none => false) =
          (List.map Prod.fst rest).filter (fun k =>
            match lookupEntry rest k with
            | some v => P (k, v)
            | none => false) := by
        apply List.filter_congr
        intro k hkmem
        have hk : k' ≠ k := fun he => hn.1 (he ▸ hkmem)
        rw [lookupEntry, if_neg hk]
      rw [List.filter_cons, List.map_cons, List.filter_cons]
      have hq : (match lookupEntry ((k', v') :: rest) k' with
          | some v => P (k', v)
          | none => false) = P (k', v') := by
        rw [lookupEntry, if_pos rfl]
      by_cases hP : P (k', v')
      · rw [if_pos hP, if_pos (by rw [hq]; exact hP), List.map_cons, ih hn.2, hrest]
      · rw [if_neg hP, if_neg (by rw [hq]; exact hP), ih hn.2, hrest]

/-- Sorting commutes with filtering. -/
theorem sortStrings_filter (q : String → Bool) (l : List String) :
    sortStrings (l.filter q) = (sortStrings l).filter q :=
  @List.eq_of_perm_of_sorted String (fun a b => strLe a b = true)
    ⟨fun _ _ h1 h2 => strLe_antisymm h1 h2⟩ _ _
    ((sortStrings_perm _).trans ((sortStrings_perm l).filter q).symm)
    (sorted_sortStrings _)
    (List.Pairwise.filter q (sorted_sortStrings l))

/-- With unique keys, sorted entry lookup is invariant under permutation of
the `environmentVariables` mapping: the rendered dotenv lines coincide. -/
theorem getEnvironmentVariables_perm {vars vars' : List (String × Value)}
    (hp : vars.Perm vars') (hn : (vars.map Prod.fst).Nodup) :
    getEnvironmentVariables (mkEnv vars) = getEnvironmentVariables (mkEnv vars') := by
  rw [getEnvironmentVariables_mkEnv, getEnvironmentVariables_mkEnv,
    sortStrings_eq_of_perm (hp.map Prod.fst)]
  have hfun : (fun k =>
      match lookupEntry vars k with
      | some (Value.str s) => some (k ++ "=" ++ goQuote s)
      | _ => none) =
      (fun k =>
        match lookupEntry vars' k with
        | some (Value.str s) => some (k ++ "=" ++ goQuote s)
        | _ => none) :=
    funext fun k => by rw [lookupEntry_perm hp hn k]
  rw [hfun]

/-- C10: for every path and format, rendering a nil environment writes
nothing to the output stream and returns no error, even for an unknown
format identifier. -/
theorem c10_nil_environment_silent : ∀ (path : PropertyPath) (format : String),
    renderValue none path format = Except.ok "" := fun _ _ => rfl

/-- C7: for every environment tree and path, the shell renderer emits exactly
the dotenv lines, each prefixed with the string `export ` (the extraction,
string-filtering and key-sort logic is the shared `getEnvironmentVariables`). -/
theorem c7_shell_is_export_of_dotenv : ∀ (env : Environment) (path : PropertyPath),
    renderValue (some env) path "dotenv" =
      Except.ok (String.join ((getEnvironmentVariables env).map (fun kvp => kvp ++ "\n"))) ∧
    renderValue (some env) path "shell" =
      Except.ok (String.join
        ((getEnvironmentVariables env).map (fun kvp => "export " ++ (kvp ++ "\n")))) := by
  intro env path
  refine ⟨renderValue_dotenv env path, ?_⟩
  rw [renderValue_shell]
  simp [String.append_assoc]

/-- C1: counterexample — the dotenv renderer does NOT embed the string value
verbatim: for the entry A ↦ `a"b` the emitted line is `A="a\"b"` (the `%q`
verb escapes the inner quote), not the claimed verbatim `A="a"b"`. -/
theorem c1_counterexample :
    getEnvironmentVariables (mkEnv [("A", Value.str "a\"b")]) = ["A=\"a\\\"b\""] ∧
    "A=\"a\\\"b\"" ≠ "A=" ++ "\"" ++ "a\"b" ++ "\"" := by
  exact ⟨by decide, by decide⟩

/-- C1 (amended): for every entry whose value is a string, the dotenv
renderer emits the line `KEY=` followed by the value quoted per Go `%q`
(escaping embedded quotes, backslashes and control characters); when every
character of the value is printable ASCII needing no escape, the content
appears verbatim between the double quotes. -/
theorem c1_dotenv_line_quoted {vars : List (String × Value)} {k s : String}
    (hlook : lookupEntry vars k = some (Value.str s)) :
    (k ++ "=" ++ goQuote s) ∈ getEnvironmentVariables (mkEnv vars) ∧
    (plainChars s → goQuote s = "\"" ++ s ++ "\"") := by
  constructor
  · rw [getEnvironmentVariables_mkEnv]
    refine List.mem_filterMap.mpr ⟨k, ?_, ?_⟩
    · exact ((sortStrings_perm (vars.map Prod.fst)).mem_iff).mpr (lookupEntry_key_mem hlook)
    · rw [hlook]
  · exact fun h => goQuote_plain h

/-- C1 witness: the amended theorem applied at a concrete entry. -/
theorem c1_dotenv_line_quoted_witness :
    ("A" ++ "=" ++ goQuote "x") ∈ getEnvironmentVariables (mkEnv [("A", Value.str "x")]) ∧
    (plainChars "x" → goQuote "x" = "\"" ++ "x" ++ "\"") :=
  c1_dotenv_line_quoted (by rfl)

/-- C3: supplying a non-empty property path together with format dotenv or
shell fails with a user error naming the format, before any remote call
(the call log is empty: neither the open nor the fetch call is made). -/
theorem c3_path_incompatible_with_dotenv_shell {c : Client} {path : PropertyPath}
    {format : String} (hf : format = "dotenv" ∨ format = "shell") (hp : path ≠ []) :
    runE c path format =
      ⟨some ("output format '" ++ format ++ "' may not be used with a property path"),
        "", "", []⟩ := by
  have hie : path.isEmpty = false := by
    cases path with
    | nil => exact absurd rfl hp
    | cons a l => rfl
  have hni : ¬ (path.isEmpty = true) := by rw [hie]; simp
  rcases hf with h | h
  · subst h
    unfold runE
    rw [if_neg (by decide), if_pos (by decide), if_neg hni]
  · subst h
    unfold runE
    rw [if_neg (by decide), if_pos (by decide), if_neg hni]

/-- C3 witness: the theorem applied at a concrete client, path and format. -/
theorem c3_path_incompatible_witness :
    runE ⟨Except.ok ("sid", []), fun _ => Except.error "unused"⟩
        [PathSeg.key "x"] "dotenv" =
      ⟨some ("output format '" ++ "dotenv" ++ "' may not be used with a property path"),
        "", "", []⟩ :=
  c3_path_incompatible_with_dotenv_shell (Or.inl rfl) (List.cons_ne_nil _ _)

/-- C5: a property path that does not resolve is not an error: the renderer
substitutes the canonical empty/undefined value and renders it normally, so
every known format succeeds, and the json format prints `null`. -/
theorem c5_lookup_miss_renders_null {env : Environment} {path : PropertyPath}
    {format : String} (hpath : path ≠ [])
    (hmiss : getEnvValue (Value.obj env.properties) path = none)
    (hformat : format = "json" ∨ format = "detailed" ∨ format = "string" ∨
      format = "dotenv" ∨ format = "shell") :
    (∃ out, renderValue (some env) path format = Except.ok out) ∧
    (format = "json" → renderValue (some env) path format = Except.ok "null\n") := by
  have hnull : narrowValue (Value.obj env.properties) path = Value.null :=
    narrowValue_miss hpath hmiss
  constructor
  · rcases hformat with h | h | h | h | h <;> subst h
    · exact ⟨_, renderValue_json env path⟩
    · exact ⟨_, renderValue_detailed env path⟩
    · exact ⟨_, renderValue_string env path⟩
    · exact ⟨_, renderValue_dotenv env path⟩
    · exact ⟨_, renderValue_shell env path⟩
  · intro h
    subst h
    rw [renderValue_json, hnull]
    rfl

/-- C5 witness: the missing path x.z on the tree x ↦ (y ↦ 42) renders as
JSON null, successfully. -/
theorem c5_lookup_miss_witness :
    (∃ out, renderValue (some ⟨[("x", Value.obj [("y", Value.num 42)])]⟩)
      [PathSeg.key "x", PathSeg.key "z"] "json" = Except.ok out) ∧
    (("json" : String) = "json" →
      renderValue (some ⟨[("x", Value.obj [("y", Value.num 42)])]⟩)
        [PathSeg.key "x", PathSeg.key "z"] "json" = Except.ok "null\n") :=
  c5_lookup_miss_renders_null (List.cons_ne_nil _ _) rfl (Or.inl rfl)

/-- The keys of the entries kept by a key-preserving filterMap form a sublist
of the traversed keys. -/
theorem filterMap_keys_sublist (g : String → Option (String × String))
    (hg : ∀ k p, g k = some p → p.1 = k) :
    ∀ l : List String, ((l.filterMap g).map Prod.fst).Sublist l := by
  intro l
  induction l with
  | nil => simp
  | cons k l ih =>
      rw [List.filterMap_cons]
      cases hres : g k with
      | none => exact ih.cons k
      | some p =>
          rw [List.map_cons, hg k p hres]
          exact ih.cons₂ k

/-- Dropping the non-string entries of the `environmentVariables` mapping
does not change the dotenv lines (with unique keys). -/
theorem getEnvironmentVariables_filter_str {vars : List (String × Value)}
    (hn : (vars.map Prod.fst).Nodup) :
    getEnvironmentVariables (mkEnv (vars.filter (fun p => isStrVal p.2))) =
      getEnvironmentVariables (mkEnv vars) := by
  rw [getEnvironmentVariables_mkEnv, getEnvironmentVariables_mkEnv]
  have hfun : ∀ k, (match lookupEntry (vars.filter (fun p => isStrVal p.2)) k with
      | some (Value.str s) => some (k ++ "=" ++ goQuote s)
      | _ => none) =
      (match lookupEntry vars k with
        | some (Value.str s) => some (k ++ "=" ++ goQuote s)
        | _ => none) := by
    intro k
    rw [lookupEntry_filter (fun p => isStrVal p.2) hn k]
    cases hres : lookupEntry vars k with
    | none => rfl
    | some v => cases v <;> rfl
  rw [List.filterMap_congr (fun k _ => hfun k),
    filter_map_fst (fun p => isStrVal p.2) hn, sortStrings_filter, List.filterMap_filter]
  apply List.filterMap_congr
  intro k _
  cases hres : lookupEntry vars k with
  | none => rfl
  | some v => cases v <;> rfl

/-- C4: the dotenv renderer emits entries sorted by key in byte/lexicographic
order — the emitted lines come from a key-sorted pair list — regardless of
the insertion order of the mapping; in particular the tree with
environmentVariables B ↦ 2, A ↦ 1 (inserted in that order) renders with
empty path as exactly the two lines A="1" then B="2". -/
theorem c4_dotenv_sorted_by_key :
    (∀ env : Environment, ∃ ps : List (String × String),
      List.Pairwise (fun a b => strLe a b = true) (ps.map Prod.fst) ∧
      getEnvironmentVariables env = ps.map (fun p => p.1 ++ "=" ++ goQuote p.2)) ∧
    (∀ vars vars' : List (String × Value), vars.Perm vars' → (vars.map Prod.fst).Nodup →
      getEnvironmentVariables (mkEnv vars) = getEnvironmentVariables (mkEnv vars')) ∧
    renderValue (some (mkEnv [("B", Value.str "2"), ("A", Value.str "1")])) [] "dotenv" =
      Except.ok "A=\"1\"\nB=\"2\"\n" := by
  refine ⟨?_, fun vars vars' hp hn => getEnvironmentVariables_perm hp hn, by rfl⟩
  intro env
  cases hres : lookupEntry env.properties "environmentVariables" with
  | none => exact ⟨[], by simp, by simp [getEnvironmentVariables, hres]⟩
  | some v =>
      cases v with
      | null => exact ⟨[], by simp, by simp [getEnvironmentVariables, hres]⟩
      | bool b => exact ⟨[], by simp, by simp [getEnvironmentVariables, hres]⟩
      | num n => exact ⟨[], by simp, by simp [getEnvironmentVariables, hres]⟩
      | str s => exact ⟨[], by simp, by simp [getEnvironmentVariables, hres]⟩
      | arr es => exact ⟨[], by simp, by simp [getEnvironmentVariables, hres]⟩
      | obj vars =>
          refine ⟨(sortStrings (vars.map Prod.fst)).filterMap (fun k =>
            match lookupEntry vars k with
            | some (Value.str s) => some (k, s)
            | _ => none), ?_, ?_⟩
          · refine List.Pairwise.sublist ?_ (sorted_sortStrings (vars.map Prod.fst))
            apply filterMap_keys_sublist
            intro k p h
            revert h
            cases hres2 : lookupEntry vars k with
            | none => intro h; cases h
            | some v =>
                cases v with
                | str s => intro h; cases h; rfl
                | null => intro h; cases h
                | bool b => intro h; cases h
                | num n => intro h; cases h
                | arr es => intro h; cases h
                | obj es => intro h; cases h
          · simp only [getEnvironmentVariables, hres]
            rw [List.map_filterMap]
            apply List.filterMap_congr
            intro k _
            cases hres2 : lookupEntry vars k with
            | none => rfl
            | some v => cases v <;> rfl

/-- C4 witness: the sorted-pair decomposition, permutation invariance and
the concrete scenario, instantiated. -/
theorem c4_dotenv_sorted_witness :
    (∃ ps : List (String × String),
      List.Pairwise (fun a b => strLe a b = true) (ps.map Prod.fst) ∧
      getEnvironmentVariables (mkEnv [("B", Value.str "2"), ("A", Value.str "1")]) =
        ps.map (fun p => p.1 ++ "=" ++ goQuote p.2)) ∧
    getEnvironmentVariables (mkEnv [("B", Value.str "2"), ("A", Value.str "1")]) =
      getEnvironmentVariables (mkEnv [("A", Value.str "1"), ("B", Value.str "2")]) :=
  ⟨c4_dotenv_sorted_by_key.1 (mkEnv [("B", Value.str "2"), ("A", Value.str "1")]),
    c4_dotenv_sorted_by_key.2.1 _ _ (List.Perm.swap _ _ _) (by decide)⟩

/-- C8: rendering is deterministic — the same (tree, path, format) triple
always produces the same output — and in particular the dotenv and shell
output does not vary with the iteration order of the unordered
environmentVariables mapping (any permutation of its entries renders
byte-identically). -/
theorem c8_rendering_deterministic :
    (∀ (env : Option Environment) (path : PropertyPath) (format : String),
      renderValue env path format = renderValue env path format) ∧
    (∀ (vars vars' : List (String × Value)) (path : PropertyPath),
      vars.Perm vars' → (vars.map Prod.fst).Nodup →
      renderValue (some (mkEnv vars)) path "dotenv" =
        renderValue (some (mkEnv vars')) path "dotenv" ∧
      renderValue (some (mkEnv vars)) path "shell" =
        renderValue (some (mkEnv vars')) path "shell") := by
  refine ⟨fun _ _ _ => rfl, fun vars vars' path hp hn => ?_⟩
  have h := getEnvironmentVariables_perm hp hn
  rw [renderValue_dotenv, renderValue_dotenv, renderValue_shell, renderValue_shell, h]
  exact ⟨rfl, rfl⟩

/-- C8 witness: two insertion orders of the same mapping render identically
in both whole-tree formats. -/
theorem c8_rendering_deterministic_witness :
    renderValue (some (mkEnv [("B", Value.str "2"), ("A", Value.str "1")])) [] "dotenv" =
      renderValue (some (mkEnv [("A", Value.str "1"), ("B", Value.str "2")])) [] "dotenv" ∧
    renderValue (some (mkEnv [("B", Value.str "2"), ("A", Value.str "1")])) [] "shell" =
      renderValue (some (mkEnv [("A", Value.str "1"), ("B", Value.str "2")])) [] "shell" :=
  c8_rendering_deterministic.2 _ _ [] (List.Perm.swap _ _ _) (by decide)

/-- C9: when the top-level environmentVariables property is absent or not a
mapping, the dotenv and shell renderers produce zero output lines and no
error; and entries whose value is not a string scalar are silently omitted:
dropping them does not change the output. -/
theorem c9_nonmapping_silent_nonstring_skipped :
    (∀ env : Environment,
      (∀ m : List (String × Value),
        lookupEntry env.properties "environmentVariables" ≠ some (Value.obj m)) →
      getEnvironmentVariables env = [] ∧
      renderValue (some env) [] "dotenv" = Except.ok "" ∧
      renderValue (some env) [] "shell" = Except.ok "") ∧
    (∀ vars : List (String × Value), (vars.map Prod.fst).Nodup →
      getEnvironmentVariables (mkEnv vars) =
        getEnvironmentVariables (mkEnv (vars.filter (fun p => isStrVal p.2)))) := by
  constructor
  · intro env hno
    have hempty : getEnvironmentVariables env = [] := by
      cases hres : lookupEntry env.properties "environmentVariables" with
      | none => simp [getEnvironmentVariables, hres]
      | some v =>
          cases v with
          | obj m => exact absurd hres (hno m)
          | null => simp [getEnvironmentVariables, hres]
          | bool b => simp [getEnvironmentVariables, hres]
          | num n => simp [getEnvironmentVariables, hres]
          | str s => simp [getEnvironmentVariables, hres]
          | arr es => simp [getEnvironmentVariables, hres]
    refine ⟨hempty, ?_, ?_⟩
    · rw [renderValue_dotenv, hempty]; rfl
    · rw [renderValue_shell, hempty]; rfl
  · intro vars hn
    exact (getEnvironmentVariables_filter_str hn).symm

/-- C9 witness: a tree without the mapping renders nothing; a mapping with a
non-string entry renders the same lines as its string-only restriction. -/
theorem c9_nonmapping_witness :
    (getEnvironmentVariables ⟨[("other", Value.str "x")]⟩ = [] ∧
      renderValue (some ⟨[("other", Value.str "x")]⟩) [] "dotenv" = Except.ok "" ∧
      renderValue (some ⟨[("other", Value.str "x")]⟩) [] "shell" = Except.ok "") ∧
    getEnvironmentVariables (mkEnv [("A", Value.str "1"), ("B", Value.bool true)]) =
      getEnvironmentVariables (mkEnv
        ([("A", Value.str "1"), ("B", Value.bool true)].filter (fun p => isStrVal p.2))) :=
  ⟨c9_nonmapping_silent_nonstring_skipped.1 ⟨[("other", Value.str "x")]⟩
      (fun m h => by cases h),
    c9_nonmapping_silent_nonstring_skipped.2 [("A", Value.str "1"), ("B", Value.bool true)]
      (by decide)⟩

/-- C2: when the open call returns a non-empty diagnostics list, the fetch
call is never made (the call log holds only the open call), no tree is
returned (the environment is nil) and the diagnostics are returned; at the
command level nothing is rendered to stdout — the diagnostics are reported
on stderr and the command succeeds. -/
theorem c2_diagnostics_preempt_fetch {c : Client} {envID : String} {diags : List String}
    (hopen : c.openResult = Except.ok (envID, diags)) (hne : diags ≠ []) :
    openEnvironment c = ⟨none, diags, none, [RemoteCall.openCall]⟩ ∧
    (∀ (path : PropertyPath) (format : String),
      format = "detailed" ∨ format = "json" ∨ format = "string" ∨
        ((format = "dotenv" ∨ format = "shell") ∧ path = []) →
      runE c path format = ⟨none, "", writeDiags diags, [RemoteCall.openCall]⟩) := by
  have hie : diags.isEmpty = false := by
    cases diags with
    | nil => exact absurd rfl hne
    | cons a l => rfl
  have hopenEnv : openEnvironment c = ⟨none, diags, none, [RemoteCall.openCall]⟩ := by
    unfold openEnvironment
    rw [hopen]
    simp [hie]
  refine ⟨hopenEnv, ?_⟩
  intro path format hf
  have hrun : runOpen c path format = ⟨none, "", writeDiags diags, [RemoteCall.openCall]⟩ := by
    unfold runOpen
    rw [hopenEnv]
    simp [hie]
  rcases hf with h | h | h | ⟨h, hp⟩
  · subst h
    unfold runE
    rw [if_pos (by decide)]
    exact hrun
  · subst h
    unfold runE
    rw [if_pos (by decide)]
    exact hrun
  · subst h
    unfold runE
    rw [if_pos (by decide)]
    exact hrun
  · subst hp
    rcases h with h | h
    · subst h
      unfold runE
      rw [if_neg (by decide), if_pos (by decide), if_pos (by decide)]
      exact hrun
    · subst h
      unfold runE
      rw [if_neg (by decide), if_pos (by decide), if_pos (by decide)]
      exact hrun

/-- C2 witness: a client whose open call returns one diagnostic. -/
theorem c2_diagnostics_preempt_fetch_witness :
    openEnvironment ⟨Except.ok ("sid", ["oops"]), fun _ => Except.error "unused"⟩ =
      ⟨none, ["oops"], none, [RemoteCall.openCall]⟩ ∧
    runE ⟨Except.ok ("sid", ["oops"]), fun _ => Except.error "unused"⟩ [] "json" =
      ⟨none, "", writeDiags ["oops"], [RemoteCall.openCall]⟩ :=
  ⟨(c2_diagnostics_preempt_fetch rfl (by simp)).1,
    (c2_diagnostics_preempt_fetch rfl (by simp)).2 [] "json" (Or.inr (Or.inl rfl))⟩

/-- C6: counterexample — for the unknown format identifier `x"y` the command
errors without a remote call, but the error message (the `%q`-quoted
identifier) does not contain the literal identifier: the embedded quote is
escaped. -/
theorem c6_counterexample :
    (runE ⟨Except.ok ("sid", []), fun _ => Except.error "unused"⟩ [] "x\"y").err =
      some "unknown output format \"x\\\"y\"" ∧
    (runE ⟨Except.ok ("sid", []), fun _ => Except.error "unused"⟩ [] "x\"y").calls = [] ∧
    ¬ containsLit "unknown output format \"x\\\"y\"" "x\"y" := by
  refine ⟨by decide, by decide, ?_⟩
  unfold containsLit
  decide

/-- C6 (amended): every format identifier outside the five known ones is
rejected with an error naming the identifier quoted per Go `%q`, with no
remote call; when the identifier consists of printable ASCII characters
needing no escape, the message contains the identifier verbatim. -/
theorem c6_unknown_format_rejected {c : Client} {path : PropertyPath} {format : String}
    (h1 : format ≠ "detailed") (h2 : format ≠ "json") (h3 : format ≠ "string")
    (h4 : format ≠ "dotenv") (h5 : format ≠ "shell") :
    runE c path format =
      ⟨some ("unknown output format " ++ goQuote format), "", "", []⟩ ∧
    (plainChars format →
      containsLit ("unknown output format " ++ goQuote format) format) := by
  constructor
  · unfold runE
    rw [if_neg (by simp [h1, h2, h3]), if_neg (by simp [h4, h5])]
  · intro hplain
    rw [goQuote_plain hplain]
    unfold containsLit
    refine ⟨"unknown output format ".data ++ ['"'], ['"'], ?_⟩
    rw [String.data_append, String.data_append, String.data_append]
    show "unknown output format ".data ++ ['"'] ++ format.data ++ ['"'] =
      "unknown output format ".data ++ ("\"".data ++ format.data ++ "\"".data)
    simp [List.append_assoc]

/-- C6 witness: the amended theorem at the format `bogus`, whose message
contains the literal identifier. -/
theorem c6_unknown_format_witness :
    runE ⟨Except.ok ("sid", []), fun _ => Except.error "unused"⟩ [] "bogus" =
      ⟨some ("unknown output format " ++ goQuote "bogus"), "", "", []⟩ ∧
    containsLit ("unknown output format " ++ goQuote "bogus") "bogus" :=
  ⟨(@c6_unknown_format_rejected ⟨Except.ok ("sid", []), fun _ => Except.error "unused"⟩
      [] "bogus" (by decide) (by decide) (by decide) (by decide) (by decide)).1,
    (@c6_unknown_format_rejected ⟨Except.ok ("sid", []), fun _ => Except.error "unused"⟩
      [] "bogus" (by decide) (by decide) (by decide) (by decide) (by decide)).2
      (by unfold plainChars; decide)⟩
